import Mathlib

/-!
Shallow embedding of the gifttt reactive engine core (rule.go of package
gifttt): the VariableManager with its JSON-serialized store records and
change-event channel, the GlobalScope bridge over the twik interpreter's
scope contract, the run/log built-ins, and the RuleManager dispatch batch.

Go machine state (the in-memory cache map, the backing key/value store) is
passed explicitly; the externally observable effects of a call (store reads
and writes, channel sends) are recorded as an ordered action trace so that
ordering claims can be stated.
-/

set_option autoImplicit false

deriving instance DecidableEq for Except

namespace Gifttt

/-- The dynamically-typed value domain held by variables (Go interface
values produced by the rules and by JSON decoding: numbers, strings,
booleans, nil). Go interface equality on this domain is structural
equality, modelled by DecidableEq. -/
inductive GoValue where
  | vint : Int → GoValue
  | vstr : String → GoValue
  | vbool : Bool → GoValue
  | vnull : GoValue
deriving DecidableEq

/-- A leaf JSON value, as produced by encoding a GoValue. -/
inductive Jval where
  | jnum : Int → Jval
  | jstr : String → Jval
  | jbool : Bool → Jval
  | jnull : Jval
deriving DecidableEq

/-- The JSON documents relevant here: a leaf, or a flat object of
string-keyed leaf fields (the persisted record shape is one flat object). -/
inductive Json where
  | leaf : Jval → Json
  | obj : List (String × Jval) → Json
deriving DecidableEq

/-- Bytes held by the Store under a key: either the text of a well-formed
JSON document, or malformed text, carrying the message a JSON decoder
reports for it. -/
inductive Bytes where
  | wellFormed : Json → Bytes
  | malformed : String → Bytes
deriving DecidableEq

/-- JSON encoding of a GoValue (what json.Marshal does to the interface
value stored in the record's field). -/
def encodeJval : GoValue → Jval
  | .vint n => .jnum n
  | .vstr s => .jstr s
  | .vbool b => .jbool b
  | .vnull => .jnull

/-- JSON decoding of a leaf into a Go interface value (what json.Unmarshal
does when filling an interface field). -/
def decodeJval : Jval → GoValue
  | .jnum n => .vint n
  | .jstr s => .vstr s
  | .jbool b => .vbool b
  | .jnull => .vnull

set_option linter.dupNamespace false in
/-- The record type persisted for every variable: the Name field carries
the json tag "-" and is excluded from serialization; the Value field is
serialized under the field name "value". -/
structure Value where
  Name : String
  Value : GoValue
deriving DecidableEq

/-- First-match lookup in a flat JSON object's field list. -/
def lookupField (k : String) : List (String × Jval) → Option Jval
  | [] => none
  | (k', v) :: rest => if k' = k then some v else lookupField k rest

/-- json.Marshal of a Value record: a single-field object holding the
payload under "value"; the Name field (tagged json:"-") is not emitted. -/
def marshalValue (v : Value) : Bytes :=
  Bytes.wellFormed (Json.obj [("value", encodeJval v.Value)])

/-- json.Unmarshal of stored bytes into a fresh Value record: malformed
text fails with the decoder's message; a non-object document cannot fill a
struct and fails; an object fills Value from its "value" field (absent
field leaves the interface value nil). -/
def unmarshalValue : Bytes → Except String Value
  | .malformed msg => Except.error msg
  | .wellFormed (.leaf _) =>
      Except.error "json: cannot unmarshal value into Go value of type gifttt.Value"
  | .wellFormed (.obj fields) =>
      Except.ok { Name := ""
                  Value := match lookupField "value" fields with
                           | some jv => decodeJval jv
                           | none => GoValue.vnull }

/-- First-match lookup in a string-keyed association list (Go map read). -/
def alookup {α : Type} (k : String) : List (String × α) → Option α
  | [] => none
  | (k', v) :: rest => if k' = k then some v else alookup k rest

/-- Update in a string-keyed association list (Go map write): replaces the
first binding of the key, or appends a new binding. -/
def aset {α : Type} (k : String) (v : α) : List (String × α) → List (String × α)
  | [] => [(k, v)]
  | (k', v') :: rest => if k' = k then (k, v) :: rest else (k', v') :: aset k v rest

/-- The fixed namespace under which variables are keyed in the Store. -/
def keyNamespace : String := "var~"

/-- The mutable state shared by all VariableManager operations: the
in-memory read cache (map name to record) and the backing Store (map
prefixed key to bytes). -/
structure VMState where
  cache : List (String × Value)
  store : List (String × Bytes)
deriving DecidableEq

/-- One externally observable primitive effect of a VariableManager call,
in execution order: a Store read, a cache write, handing a change event to
the Updates channel (which blocks until a consumer receives it), or a
Store write. -/
inductive Action where
  | storeGet : String → Action
  | cacheWrite : String → Value → Action
  | sendUpdate : Value → Action
  | storeSet : String → Bytes → Action
deriving DecidableEq

/-- VariableManager.Get: check the cache first and answer from it on a
hit; on a miss read the Store under the prefixed key — a Store failure
surfaces as "undefined symbol: name", otherwise unmarshal the bytes and
return the decoded payload or the decode error. Returns the result
together with the trace of Store reads performed. -/
def VariableManager.Get (st : VMState) (name : String) :
    Except String GoValue × List Action :=
  match alookup name st.cache with
  | some v => (Except.ok v.Value, [])
  | none =>
    match alookup (keyNamespace ++ name) st.store with
    | none => (Except.error ("undefined symbol: " ++ name),
               [Action.storeGet (keyNamespace ++ name)])
    | some b =>
      match unmarshalValue b with
      | .ok v => (Except.ok v.Value, [Action.storeGet (keyNamespace ++ name)])
      | .error e => (Except.error e, [Action.storeGet (keyNamespace ++ name)])

/-- VariableManager.Set: first Get the current value; if that succeeded
and the value equals the one being set, return nil with no further effect.
Otherwise build the record, marshal it, then in order: write the cache
entry, hand the change event to the Updates channel, and write the
marshalled bytes to the Store under the prefixed key. Returns the result,
the state after the call and the ordered action trace. -/
def VariableManager.Set (st : VMState) (name : String) (value : GoValue) :
    Except String Unit × VMState × List Action :=
  let getRes := VariableManager.Get st name
  if getRes.1 = Except.ok value then
    (Except.ok (), st, getRes.2)
  else
    let v : Value := { Name := name, Value := value }
    let b := marshalValue v
    (Except.ok (),
     { cache := aset name v st.cache,
       store := aset (keyNamespace ++ name) b st.store },
     getRes.2 ++ [Action.cacheWrite name v, Action.sendUpdate v,
                  Action.storeSet (keyNamespace ++ name) b])

/-- Is this action a channel send (event hand-off)? -/
def isSendA : Action → Bool
  | .sendUpdate _ => true
  | _ => false

/-- Is this action a Store write? -/
def isStoreSetA : Action → Bool
  | .storeSet _ _ => true
  | _ => false

/-- Is this action a cache write? -/
def isCacheWriteA : Action → Bool
  | .cacheWrite _ _ => true
  | _ => false

/-- Is this action a Store read? -/
def isStoreGetA : Action → Bool
  | .storeGet _ => true
  | _ => false

/-- The change events handed to the Updates channel during a trace, in
hand-off order (the channel is unbuffered, so this is also the order a
single consumer observes). -/
def eventsOf (tr : List Action) : List Value :=
  tr.filterMap fun a => match a with
    | .sendUpdate v => some v
    | _ => none

/-- The Store writes performed during a trace, in order, as key and bytes
pairs. -/
def storeSetsOf (tr : List Action) : List (String × Bytes) :=
  tr.filterMap fun a => match a with
    | .storeSet k b => some (k, b)
    | _ => none

/-- Claim C1's per-trace ordering property: every Store write in the trace
happens strictly before every event hand-off (persist-then-notify).
Scanning the trace: when an event hand-off is reached, no Store write may
remain after it. -/
def persistBeforeNotifyB : List Action → Bool
  | [] => true
  | a :: rest =>
      if isSendA a then !(rest.any isStoreSetA) && persistBeforeNotifyB rest
      else persistBeforeNotifyB rest

/-- Token standing for a twik ast.FileSet (opaque to this layer: it only
travels from the Rule's construction into the bridge scope). -/
inductive FileSet where
  | mk : FileSet
deriving DecidableEq

/-- The GlobalScope bridge: the twik Scope implementation whose Get/Set
delegate to the VariableManager; holds only the file set. -/
structure GlobalScope where
  fset : FileSet
deriving DecidableEq

/-- Outcome of a Go call that can panic: a normal return or a runtime
panic carrying the panic message. -/
inductive PanicOr (α : Type) where
  | ok : α → PanicOr α
  | panicked : String → PanicOr α
deriving DecidableEq

/-- A reference to a scope in the interpreter's scope chain, as far as this
layer can observe it: the bridge scope itself. -/
inductive ScopeRef where
  | globalBridge : GlobalScope → ScopeRef
deriving DecidableEq

/-- GlobalScope.Create: unsupported at the bridge — panics. -/
def GlobalScope.Create (_s : GlobalScope) (_symbol : String) (_value : GoValue) :
    PanicOr Unit :=
  PanicOr.panicked "never reached"

/-- GlobalScope.Set: delegates to VariableManager.Set. -/
def GlobalScope.Set (_s : GlobalScope) (st : VMState) (symbol : String) (value : GoValue) :
    Except String Unit × VMState × List Action :=
  VariableManager.Set st symbol value

/-- GlobalScope.Get: delegates to VariableManager.Get. -/
def GlobalScope.Get (_s : GlobalScope) (st : VMState) (symbol : String) :
    Except String GoValue × List Action :=
  VariableManager.Get st symbol

/-- GlobalScope.Branch: unsupported at the bridge — panics. -/
def GlobalScope.Branch (_s : GlobalScope) : PanicOr ScopeRef :=
  PanicOr.panicked "never reached"

/-- GlobalScope.Enclose: unsupported at the bridge — panics. -/
def GlobalScope.Enclose (_s : GlobalScope) (_parent : ScopeRef) : PanicOr Unit :=
  PanicOr.panicked "never reached"

/-- Outcome of attempting to start and wait on the external command: the
start failed with an error, or the process exited with a code. runFn
ignores this entirely apart from the redundant extra Wait. -/
inductive CmdOutcome where
  | startFailed : String → CmdOutcome
  | exited : Int → CmdOutcome
deriving DecidableEq

/-- Is this Go interface value a string? (the type assertion arg.(string)
succeeds). -/
def isStringV : GoValue → Bool
  | .vstr _ => true
  | _ => false

/-- The argument-collection loop of runFn: walks the arguments in order,
collecting strings, and fails at the first non-string argument. -/
def collectStrings : List GoValue → Except String (List String)
  | [] => Except.ok []
  | GoValue.vstr s :: rest =>
      match collectStrings rest with
      | .ok cs => Except.ok (s :: cs)
      | .error e => Except.error e
  | _ :: _ => Except.error "run only takes string arguments"

/-- The built-in run: fails without at least one argument; fails on any
non-string argument; otherwise starts the external command and waits on
it — the command's outcome is inspected only to decide the redundant extra
Wait and is otherwise swallowed — and returns nil with no error. -/
def runFn (args : List GoValue) (_outcome : CmdOutcome) : Except String GoValue :=
  if args.length < 1 then Except.error "run takes at least one argument"
  else
    match collectStrings args with
    | .error e => Except.error e
    | .ok _commands => Except.ok GoValue.vnull

/-- The built-in log: with exactly one argument that is a string, writes
it to the process log and returns nil; in every other case fails. The
second component is the list of log lines written by the call. -/
def logFn (args : List GoValue) : Except String GoValue × List String :=
  match args with
  | [GoValue.vstr s] => (Except.ok GoValue.vnull, [s])
  | _ => (Except.error "log function takes a single string argument", [])

/-- A binding held in the interpreter's child evaluation scope: one of the
two injected built-in callables, or an ordinary value binding created
while evaluating. -/
inductive Binding where
  | builtinRun : Binding
  | builtinLog : Binding
  | val : GoValue → Binding
deriving DecidableEq

/-- The twik default evaluation scope as observable from this layer: its
parent in the scope chain and its local symbol table. -/
structure ChildScope where
  parent : ScopeRef
  bindings : List (String × Binding)
deriving DecidableEq

/-- A parsed twik program (ast.Node), opaque to this layer. -/
structure Node where
  id : Nat
deriving DecidableEq

/-- The twik evaluator, consumed as a black box: given a program, the
child scope to evaluate in and the variable-manager state reachable
through the scope chain, it produces a result, the child scope as left
after evaluation (with any local bindings created), and the
variable-manager state as left after evaluation. -/
def EvalFn : Type :=
  Node → ChildScope → VMState → Except String GoValue × ChildScope × VMState

/-- GlobalScope.Eval: build a fresh default scope over the bridge's file
set, enclose the bridge as its parent, create the run and log bindings in
it, and evaluate the program in that scope. The first component reports
the child scope handed to the evaluator; the final child scope is
discarded, only the variable-manager state survives the call. -/
def GlobalScope.Eval (s : GlobalScope) (evalF : EvalFn) (node : Node) (vm : VMState) :
    ChildScope × Except String GoValue × VMState :=
  let scope : ChildScope :=
    { parent := ScopeRef.globalBridge s,
      bindings := [("run", Binding.builtinRun), ("log", Binding.builtinLog)] }
  let r := evalF node scope vm
  (scope, r.1, r.2.2)

/-- A loaded rule: its display name (the rule file name), the parsed
program, and its bound bridge scope. Immutable after construction. -/
structure Rule where
  Name : String
  program : Node
  scope : GlobalScope
deriving DecidableEq

/-- Rule.Run: evaluate the stored program against the stored scope and
return the error, discarding the value. The child scope handed to the
evaluator is reported unchanged for observation. -/
def Rule.Run (evalF : EvalFn) (r : Rule) (vm : VMState) :
    ChildScope × Except String Unit × VMState :=
  let res := GlobalScope.Eval r.scope evalF r.program vm
  (res.1, Except.map (fun _ => ()) res.2.1, res.2.2)

/-- One observable step of the dispatch loop's rule batch: a rule's Run
was invoked, or a per-rule error was logged with the rule's name and the
error text. -/
inductive BatchAction where
  | ran : String → BatchAction
  | logged : String → String → BatchAction
deriving DecidableEq

/-- The body of the dispatch loop's per-event task: run every loaded rule
in list order, threading the variable-manager state; a rule whose Run
returns an error has the error logged with its name and the loop
continues with the remaining rules. -/
def RuleManager.runBatch (evalF : EvalFn) (st : VMState) :
    List Rule → VMState × List BatchAction
  | [] => (st, [])
  | r :: rest =>
      let res := Rule.Run evalF r st
      let tail := RuleManager.runBatch evalF res.2.2 rest
      (tail.1,
       BatchAction.ran r.Name ::
         (match res.2.1 with
          | .error e => BatchAction.logged r.Name e :: tail.2
          | .ok _ => tail.2))

/-- The names of the rules whose Run was invoked during a batch trace, in
invocation order. -/
def ranName : BatchAction → Option String
  | .ran n => some n
  | _ => none

/-- Concrete fixture: a file set token. -/
def wFset : FileSet := FileSet.mk

/-- Concrete fixture: a bridge scope. -/
def wScope : GlobalScope := { fset := wFset }

/-- Concrete fixture: an evaluator that fails on program 2 with "boom" and
returns nil on every other program, touching no state. -/
def wEvalF : EvalFn := fun node c vm =>
  if node.id = 2 then (Except.error "boom", c, vm)
  else (Except.ok GoValue.vnull, c, vm)

/-- Concrete fixture: three rules of which the second fails under wEvalF. -/
def wRules : List Rule :=
  [ { Name := "a", program := { id := 1 }, scope := wScope },
    { Name := "b", program := { id := 2 }, scope := wScope },
    { Name := "c", program := { id := 3 }, scope := wScope } ]

/-- Concrete fixture: a state whose cache is empty while the Store already
holds the record for variable x with payload 1 under the prefixed key
(as another process, or an earlier process lifetime, would leave it). -/
def wStoreOnlyState : VMState :=
  { cache := [],
    store := [("var~x", Bytes.wellFormed (Json.obj [("value", Jval.jnum 1)]))] }

theorem get_trace_shape (st : VMState) (name : String) :
    (VariableManager.Get st name).2 = [] ∨
    (VariableManager.Get st name).2 = [Action.storeGet (keyNamespace ++ name)] := by
  unfold VariableManager.Get
  rcases h1 : alookup name st.cache with _ | v
  · rcases h2 : alookup (keyNamespace ++ name) st.store with _ | b
    · simp [h1, h2]
    · rcases h3 : unmarshalValue b with e | v
      · simp [h1, h2, h3]
      · simp [h1, h2, h3]
  · simp [h1]

theorem get_trace_effects (st : VMState) (name : String) :
    eventsOf (VariableManager.Get st name).2 = [] ∧
    (VariableManager.Get st name).2.any isSendA = false ∧
    (VariableManager.Get st name).2.any isStoreSetA = false ∧
    (VariableManager.Get st name).2.any isCacheWriteA = false ∧
    storeSetsOf (VariableManager.Get st name).2 = [] := by
  rcases get_trace_shape st name with h | h <;>
    simp [h, eventsOf, storeSetsOf, isSendA, isStoreSetA, isCacheWriteA]

theorem set_eq_noop (st : VMState) (name : String) (v : GoValue)
    (h : (VariableManager.Get st name).1 = Except.ok v) :
    VariableManager.Set st name v = (Except.ok (), st, (VariableManager.Get st name).2) := by
  unfold VariableManager.Set
  simp [h]

theorem set_eq_effective (st : VMState) (name : String) (v : GoValue)
    (h : (VariableManager.Get st name).1 ≠ Except.ok v) :
    VariableManager.Set st name v =
      (Except.ok (),
       { cache := aset name ⟨name, v⟩ st.cache,
         store := aset (keyNamespace ++ name) (marshalValue ⟨name, v⟩) st.store },
       (VariableManager.Get st name).2 ++
         [Action.cacheWrite name ⟨name, v⟩, Action.sendUpdate ⟨name, v⟩,
          Action.storeSet (keyNamespace ++ name) (marshalValue ⟨name, v⟩)]) := by
  unfold VariableManager.Set
  simp [h]

theorem set_effective_iff (st : VMState) (name : String) (v : GoValue) :
    (VariableManager.Set st name v).2.2.any isSendA = true ↔
      (VariableManager.Get st name).1 ≠ Except.ok v := by
  constructor
  · intro h hok
    rw [set_eq_noop st name v hok] at h
    exact absurd h (by simp [(get_trace_effects st name).2.1])
  · intro h
    rw [set_eq_effective st name v h]
    simp [isSendA]

theorem alookup_aset_self {α : Type} (k : String) (v : α) (l : List (String × α)) :
    alookup k (aset k v l) = some v := by
  induction l with
  | nil => simp [aset, alookup]
  | cons p rest ih =>
      obtain ⟨k', v'⟩ := p
      by_cases h : k' = k
      · simp [aset, alookup, h]
      · simp [aset, alookup, h, ih]

theorem get_after_effective (st : VMState) (name : String) (v : GoValue)
    (h : (VariableManager.Get st name).1 ≠ Except.ok v) :
    VariableManager.Get (VariableManager.Set st name v).2.1 name = (Except.ok v, []) := by
  rw [set_eq_effective st name v h]
  unfold VariableManager.Get
  simp [alookup_aset_self]

theorem runBatch_ran_names (evalF : EvalFn) (st : VMState) (rules : List Rule) :
    (RuleManager.runBatch evalF st rules).2.filterMap ranName = rules.map Rule.Name := by
  induction rules generalizing st with
  | nil => simp [RuleManager.runBatch]
  | cons r rest ih =>
      unfold RuleManager.runBatch
      rcases h : (Rule.Run evalF r st).2.1 with e | u <;> simp [h, ranName, ih]

theorem runBatch_fst_cons (evalF : EvalFn) (st : VMState) (r : Rule) (l : List Rule) :
    (RuleManager.runBatch evalF st (r :: l)).1 =
      (RuleManager.runBatch evalF (Rule.Run evalF r st).2.2 l).1 := rfl

theorem runBatch_tail_mem (evalF : EvalFn) (st : VMState) (r : Rule) (l : List Rule)
    (a : BatchAction)
    (h : a ∈ (RuleManager.runBatch evalF (Rule.Run evalF r st).2.2 l).2) :
    a ∈ (RuleManager.runBatch evalF st (r :: l)).2 := by
  show a ∈ BatchAction.ran r.Name ::
    (match (Rule.Run evalF r st).2.1 with
     | .error e => BatchAction.logged r.Name e ::
         (RuleManager.runBatch evalF (Rule.Run evalF r st).2.2 l).2
     | .ok _ => (RuleManager.runBatch evalF (Rule.Run evalF r st).2.2 l).2)
  rcases he : (Rule.Run evalF r st).2.1 with e | u <;> simp [he, h]

theorem eventsOf_append (l1 l2 : List Action) :
    eventsOf (l1 ++ l2) = eventsOf l1 ++ eventsOf l2 := by
  simp [eventsOf]

theorem storeSetsOf_append (l1 l2 : List Action) :
    storeSetsOf (l1 ++ l2) = storeSetsOf l1 ++ storeSetsOf l2 := by
  simp [storeSetsOf]

/-- C1 (counterexample): an effective Set hands the change event to the
Updates channel BEFORE writing the serialized value to the Store: on the
empty state, Set x 1 is effective (a send occurs) yet the trace violates
the persist-then-notify ordering the claim asserts. -/
theorem variableManager_set_notifies_before_store_persist :
    (VariableManager.Set ⟨[], []⟩ "x" (GoValue.vint 1)).2.2.any isSendA = true ∧
    persistBeforeNotifyB (VariableManager.Set ⟨[], []⟩ "x" (GoValue.vint 1)).2.2 = false := by
  decide

/-- C1 (amended): for every effective Set, the trace is some Store reads
followed by exactly the cache write, then the event hand-off, then the
Store write — so the event is handed over before the Store write, but the
cache is updated first, and a consumer woken by the event immediately
re-reads the new, consistent value (with no Store read). -/
theorem variableManager_set_cache_update_precedes_notify
    (st : VMState) (name : String) (v : GoValue)
    (heff : (VariableManager.Set st name v).2.2.any isSendA = true) :
    ∃ pre,
      (VariableManager.Set st name v).2.2 =
        pre ++ [Action.cacheWrite name ⟨name, v⟩, Action.sendUpdate ⟨name, v⟩,
                Action.storeSet (keyNamespace ++ name) (marshalValue ⟨name, v⟩)] ∧
      pre.any isSendA = false ∧ pre.any isStoreSetA = false ∧
      pre.any isCacheWriteA = false ∧
      VariableManager.Get (VariableManager.Set st name v).2.1 name = (Except.ok v, []) := by
  have hne := (set_effective_iff st name v).mp heff
  refine ⟨(VariableManager.Get st name).2, ?_, (get_trace_effects st name).2.1,
    (get_trace_effects st name).2.2.1, (get_trace_effects st name).2.2.2.1,
    get_after_effective st name v hne⟩
  rw [set_eq_effective st name v hne]

/-- C1 (witness): the amended theorem applied to Set z 7 on the empty
state: the consumer woken by the event re-reads 7 from the cache with no
Store read. -/
theorem variableManager_set_cache_update_precedes_notify_witness :
    VariableManager.Get (VariableManager.Set ⟨[], []⟩ "z" (GoValue.vint 7)).2.1 "z" =
      (Except.ok (GoValue.vint 7), []) := by
  obtain ⟨pre, -, -, -, -, h⟩ :=
    variableManager_set_cache_update_precedes_notify ⟨[], []⟩ "z" (GoValue.vint 7) (by decide)
  exact h

/-- C2: a Set whose Get finds an equal current value is a no-op (nil
result, unchanged state, no event, no Store write, no cache write); every
other Set emits exactly one change event carrying the name and the new
value; and on a single consumer's queue, Set x 1 twice emits exactly one
event while Set x 1 then Set x 2 emits exactly those two events in that
order. -/
theorem variableManager_set_noop_suppression_and_event_emission
    (st : VMState) (name : String) (v : GoValue) :
    ((VariableManager.Get st name).1 = Except.ok v →
       (VariableManager.Set st name v).1 = Except.ok () ∧
       (VariableManager.Set st name v).2.1 = st ∧
       eventsOf (VariableManager.Set st name v).2.2 = [] ∧
       (VariableManager.Set st name v).2.2.any isStoreSetA = false ∧
       (VariableManager.Set st name v).2.2.any isCacheWriteA = false) ∧
    ((VariableManager.Get st name).1 ≠ Except.ok v →
       eventsOf (VariableManager.Set st name v).2.2 = [⟨name, v⟩]) ∧
    (eventsOf (VariableManager.Set ⟨[], []⟩ "x" (GoValue.vint 1)).2.2 ++
       eventsOf (VariableManager.Set
         (VariableManager.Set ⟨[], []⟩ "x" (GoValue.vint 1)).2.1 "x" (GoValue.vint 1)).2.2 =
       [⟨"x", GoValue.vint 1⟩]) ∧
    (eventsOf (VariableManager.Set ⟨[], []⟩ "x" (GoValue.vint 1)).2.2 ++
       eventsOf (VariableManager.Set
         (VariableManager.Set ⟨[], []⟩ "x" (GoValue.vint 1)).2.1 "x" (GoValue.vint 2)).2.2 =
       [⟨"x", GoValue.vint 1⟩, ⟨"x", GoValue.vint 2⟩]) := by
  refine ⟨?_, ?_, by decide, by decide⟩
  · intro h
    rw [set_eq_noop st name v h]
    exact ⟨rfl, rfl, (get_trace_effects st name).1,
      (get_trace_effects st name).2.2.1, (get_trace_effects st name).2.2.2.1⟩
  · intro h
    rw [set_eq_effective st name v h]
    show eventsOf ((VariableManager.Get st name).2 ++ _) = _
    rw [eventsOf_append, (get_trace_effects st name).1]
    simp [eventsOf]

/-- C2 (witness): the effective clause applied to Set y true on the empty
state. -/
theorem variableManager_set_noop_suppression_and_event_emission_witness :
    eventsOf (VariableManager.Set ⟨[], []⟩ "y" (GoValue.vbool true)).2.2 =
      [⟨"y", GoValue.vbool true⟩] :=
  (variableManager_set_noop_suppression_and_event_emission
    ⟨[], []⟩ "y" (GoValue.vbool true)).2.1 (by decide)

/-- C3 (counterexample): with a cold cache and the Store already holding
x = 1, Set x 1 returns ok (a no-op through the equality check) but does
not fill the cache, so the immediately following Get, though it returns
the value, goes to the Store — refuting "served from the in-memory cache
without invoking Store.Get" for every successful Set. -/
theorem variableManager_noop_set_get_store_roundtrip :
    (VariableManager.Set wStoreOnlyState "x" (GoValue.vint 1)).1 = Except.ok () ∧
    (VariableManager.Set wStoreOnlyState "x" (GoValue.vint 1)).2.1.cache = [] ∧
    (VariableManager.Get
       (VariableManager.Set wStoreOnlyState "x" (GoValue.vint 1)).2.1 "x").1 =
      Except.ok (GoValue.vint 1) ∧
    (VariableManager.Get
       (VariableManager.Set wStoreOnlyState "x" (GoValue.vint 1)).2.1 "x").2.any
      isStoreGetA = true := by
  decide

/-- C3 (amended): after an effective Set, Get returns the value written,
from the cache, with no Store read; after a no-op Set (the current value
already equalled the one set), Get still returns the value, but may reach
it through the Store again. -/
theorem variableManager_read_your_write (st : VMState) (name : String) (v : GoValue) :
    ((VariableManager.Set st name v).2.2.any isSendA = true →
       VariableManager.Get (VariableManager.Set st name v).2.1 name = (Except.ok v, [])) ∧
    ((VariableManager.Get st name).1 = Except.ok v →
       (VariableManager.Get (VariableManager.Set st name v).2.1 name).1 = Except.ok v) := by
  constructor
  · intro heff
    exact get_after_effective st name v ((set_effective_iff st name v).mp heff)
  · intro h
    rw [set_eq_noop st name v h]
    exact h

/-- C3 (witness): the effective clause applied to Set x 1 on the empty
state. -/
theorem variableManager_read_your_write_witness :
    VariableManager.Get (VariableManager.Set ⟨[], []⟩ "x" (GoValue.vint 1)).2.1 "x" =
      (Except.ok (GoValue.vint 1), []) :=
  (variableManager_read_your_write ⟨[], []⟩ "x" (GoValue.vint 1)).1 (by decide)

/-- C4: Get answers from the cache on a hit with no Store read; on a miss
it reads the Store under the prefixed key; a missing key yields the error
"undefined symbol: name"; bytes that fail to deserialize yield that decode
error; and bytes that deserialize yield the record's payload. -/
theorem variableManager_get_cases (st : VMState) (name : String) :
    (∀ v, alookup name st.cache = some v →
       VariableManager.Get st name = (Except.ok v.Value, [])) ∧
    (alookup name st.cache = none →
       alookup (keyNamespace ++ name) st.store = none →
       VariableManager.Get st name =
         (Except.error ("undefined symbol: " ++ name),
          [Action.storeGet (keyNamespace ++ name)])) ∧
    (∀ b e, alookup name st.cache = none →
       alookup (keyNamespace ++ name) st.store = some b →
       unmarshalValue b = Except.error e →
       VariableManager.Get st name =
         (Except.error e, [Action.storeGet (keyNamespace ++ name)])) ∧
    (∀ b v, alookup name st.cache = none →
       alookup (keyNamespace ++ name) st.store = some b →
       unmarshalValue b = Except.ok v →
       VariableManager.Get st name =
         (Except.ok v.Value, [Action.storeGet (keyNamespace ++ name)])) := by
  refine ⟨?_, ?_, ?_, ?_⟩
  · intro v h
    unfold VariableManager.Get
    simp [h]
  · intro h1 h2
    unfold VariableManager.Get
    simp [h1, h2]
  · intro b e h1 h2 h3
    unfold VariableManager.Get
    simp [h1, h2, h3]
  · intro b v h1 h2 h3
    unfold VariableManager.Get
    simp [h1, h2, h3]

/-- C4 (witness): the missing-key clause applied to the empty state. -/
theorem variableManager_get_cases_witness :
    VariableManager.Get ⟨[], []⟩ "x" =
      (Except.error ("undefined symbol: " ++ "x"), [Action.storeGet (keyNamespace ++ "x")]) :=
  (variableManager_get_cases ⟨[], []⟩ "x").2.1 (by decide) (by decide)

theorem collectStrings_ok_of_all (args : List GoValue) (h : args.all isStringV = true) :
    ∃ cs, collectStrings args = Except.ok cs := by
  induction args with
  | nil => exact ⟨[], rfl⟩
  | cons a rest ih =>
      cases a with
      | vstr s =>
          simp only [List.all_cons, isStringV, Bool.true_and] at h
          obtain ⟨cs, hcs⟩ := ih h
          exact ⟨s :: cs, by simp [collectStrings, hcs]⟩
      | vint n => simp [isStringV] at h
      | vbool b => simp [isStringV] at h
      | vnull => simp [isStringV] at h

theorem collectStrings_error_of_not_all (args : List GoValue)
    (h : args.all isStringV = false) :
    collectStrings args = Except.error "run only takes string arguments" := by
  induction args with
  | nil => simp at h
  | cons a rest ih =>
      cases a with
      | vstr s =>
          simp only [List.all_cons, isStringV, Bool.true_and] at h
          simp [collectStrings, ih h]
      | vint n => rfl
      | vbool b => rfl
      | vnull => rfl

/-- C5: run fails without arguments; fails with the argument-type error
when some argument is not a string; and in every other case returns a nil
result and no error, whatever the external command's outcome — a start
failure never propagates out of the call. -/
theorem runFn_cases (args : List GoValue) (outcome : CmdOutcome) :
    (args = [] → runFn args outcome = Except.error "run takes at least one argument") ∧
    (args.all isStringV = false →
       runFn args outcome = Except.error "run only takes string arguments") ∧
    (args ≠ [] → args.all isStringV = true →
       runFn args outcome = Except.ok GoValue.vnull) := by
  refine ⟨?_, ?_, ?_⟩
  · rintro rfl; rfl
  · intro h
    cases args with
    | nil => simp at h
    | cons a l => simp [runFn, collectStrings_error_of_not_all _ h]
  · intro hne hall
    obtain ⟨cs, hcs⟩ := collectStrings_ok_of_all args hall
    cases args with
    | nil => exact absurd rfl hne
    | cons a l => simp [runFn, hcs]

/-- C5 (witness): run echo hello returns nil with no error although the
command's start failed. -/
theorem runFn_cases_witness :
    runFn [GoValue.vstr "echo", GoValue.vstr "hello"]
      (CmdOutcome.startFailed "executable file not found") = Except.ok GoValue.vnull :=
  (runFn_cases [GoValue.vstr "echo", GoValue.vstr "hello"]
    (CmdOutcome.startFailed "executable file not found")).2.2 (by decide) (by decide)

/-- C6: log returns a nil result and no error exactly on a single string
argument; a single non-string argument and any other argument count both
fail with the call's argument-count/type error, which requires a single
string argument. -/
theorem logFn_cases (args : List GoValue) :
    ((logFn args).1 = Except.ok GoValue.vnull ↔ ∃ s, args = [GoValue.vstr s]) ∧
    (∀ s, args = [GoValue.vstr s] → logFn args = (Except.ok GoValue.vnull, [s])) ∧
    (args.length = 1 → args.all isStringV = false →
       logFn args = (Except.error "log function takes a single string argument", [])) ∧
    (args.length ≠ 1 →
       logFn args = (Except.error "log function takes a single string argument", [])) := by
  rcases args with _ | ⟨a, _ | ⟨b, rest⟩⟩
  · exact ⟨by simp [logFn], by simp, by simp, fun _ => rfl⟩
  · cases a with
    | vstr s =>
        refine ⟨by simp [logFn], ?_, ?_, by simp⟩
        · intro s' h
          obtain rfl : s = s' := by simpa using h
          rfl
        · intro _ h
          simp [isStringV] at h
    | vint n => exact ⟨by simp [logFn], by simp, fun _ _ => rfl, by simp⟩
    | vbool c => exact ⟨by simp [logFn], by simp, fun _ _ => rfl, by simp⟩
    | vnull => exact ⟨by simp [logFn], by simp, fun _ _ => rfl, by simp⟩
  · refine ⟨by cases a <;> simp [logFn], by simp, ?_, fun _ => by cases a <;> rfl⟩
    intro h
    simp at h

/-- C6 (witness): log 42 and log a b both fail with the argument error. -/
theorem logFn_cases_witness :
    logFn [GoValue.vint 42] =
      (Except.error "log function takes a single string argument", []) ∧
    logFn [GoValue.vstr "a", GoValue.vstr "b"] =
      (Except.error "log function takes a single string argument", []) :=
  ⟨(logFn_cases [GoValue.vint 42]).2.2.1 (by decide) (by decide),
   (logFn_cases [GoValue.vstr "a", GoValue.vstr "b"]).2.2.2 (by decide)⟩

/-- C7: Create, Branch and Enclose on the bridge scope each end in the
defined "never reached" panic for every argument: never a normal return,
so never a silent success or silent no-op. -/
theorem globalScope_unsupported_ops_fault (s : GlobalScope) (sym : String)
    (v : GoValue) (p : ScopeRef) :
    GlobalScope.Create s sym v = PanicOr.panicked "never reached" ∧
    GlobalScope.Branch s = PanicOr.panicked "never reached" ∧
    GlobalScope.Enclose s p = PanicOr.panicked "never reached" ∧
    (∀ u : Unit, GlobalScope.Create s sym v ≠ PanicOr.ok u) ∧
    (∀ sc : ScopeRef, GlobalScope.Branch s ≠ PanicOr.ok sc) ∧
    (∀ u : Unit, GlobalScope.Enclose s p ≠ PanicOr.ok u) := by
  refine ⟨rfl, rfl, rfl, ?_, ?_, ?_⟩ <;> intro x h <;>
    simp [GlobalScope.Create, GlobalScope.Branch, GlobalScope.Enclose] at h

/-- C8: an effective Set performs exactly one Store write, under the key
"var~" plus the name, of a well-formed one-field object holding the value
under "value"; the record is the same whatever the variable's name (the
Name field is not serialized); and the one event emitted carries the
plain, unprefixed name. -/
theorem variableManager_set_persisted_record_shape
    (st : VMState) (name : String) (v : GoValue)
    (heff : (VariableManager.Set st name v).2.2.any isSendA = true) :
    storeSetsOf (VariableManager.Set st name v).2.2 =
      [(keyNamespace ++ name, Bytes.wellFormed (Json.obj [("value", encodeJval v)]))] ∧
    eventsOf (VariableManager.Set st name v).2.2 = [⟨name, v⟩] ∧
    (∀ n1 n2 : String, ∀ w : GoValue, marshalValue ⟨n1, w⟩ = marshalValue ⟨n2, w⟩) ∧
    keyNamespace ++ name = "var~" ++ name := by
  have hne := (set_effective_iff st name v).mp heff
  refine ⟨?_, ?_, fun n1 n2 w => rfl, rfl⟩
  · rw [set_eq_effective st name v hne]
    show storeSetsOf ((VariableManager.Get st name).2 ++ _) = _
    rw [storeSetsOf_append, (get_trace_effects st name).2.2.2.2]
    simp [storeSetsOf, marshalValue]
  · rw [set_eq_effective st name v hne]
    show eventsOf ((VariableManager.Get st name).2 ++ _) = _
    rw [eventsOf_append, (get_trace_effects st name).1]
    simp [eventsOf]

/-- C8 (witness): the record and event of Set x v on the empty state. -/
theorem variableManager_set_persisted_record_shape_witness :
    storeSetsOf (VariableManager.Set ⟨[], []⟩ "x" (GoValue.vstr "v")).2.2 =
      [(keyNamespace ++ "x",
        Bytes.wellFormed (Json.obj [("value", encodeJval (GoValue.vstr "v"))]))] ∧
    eventsOf (VariableManager.Set ⟨[], []⟩ "x" (GoValue.vstr "v")).2.2 =
      [⟨"x", GoValue.vstr "v"⟩] :=
  ⟨(variableManager_set_persisted_record_shape ⟨[], []⟩ "x" (GoValue.vstr "v") (by decide)).1,
   (variableManager_set_persisted_record_shape ⟨[], []⟩ "x" (GoValue.vstr "v") (by decide)).2.1⟩

theorem runBatch_logs_error (evalF : EvalFn) :
    ∀ (rules : List Rule) (st : VMState) (i : Nat) (hi : i < rules.length) (e : String),
      (Rule.Run evalF (rules.get ⟨i, hi⟩)
         (RuleManager.runBatch evalF st (rules.take i)).1).2.1 = Except.error e →
      BatchAction.logged (rules.get ⟨i, hi⟩).Name e ∈
        (RuleManager.runBatch evalF st rules).2 := by
  intro rules
  induction rules with
  | nil => intro st i hi e he; exact absurd hi (by simp)
  | cons r rest ih =>
      intro st i hi e he
      cases i with
      | zero =>
          have he' : (Rule.Run evalF r st).2.1 = Except.error e := he
          show BatchAction.logged r.Name e ∈
            BatchAction.ran r.Name ::
              (match (Rule.Run evalF r st).2.1 with
               | .error e' => BatchAction.logged r.Name e' ::
                   (RuleManager.runBatch evalF (Rule.Run evalF r st).2.2 rest).2
               | .ok _ => (RuleManager.runBatch evalF (Rule.Run evalF r st).2.2 rest).2)
          rw [he']
          simp
      | succ i' =>
          have hi' : i' < rest.length := Nat.lt_of_succ_lt_succ hi
          exact runBatch_tail_mem evalF st r rest _
            (ih (Rule.Run evalF r st).2.2 i' hi' e he)

/-- C9: in a rule batch, when the rule at position i fails (on the state
the batch has reached at that position), the error is logged with that
rule's name, and still every rule of the list has its Run invoked, in
list order — a per-rule failure never cuts the batch short. -/
theorem ruleManager_batch_isolation
    (evalF : EvalFn) (st : VMState) (rules : List Rule)
    (i : Nat) (hi : i < rules.length) (e : String)
    (he : (Rule.Run evalF (rules.get ⟨i, hi⟩)
             (RuleManager.runBatch evalF st (rules.take i)).1).2.1 = Except.error e) :
    BatchAction.logged (rules.get ⟨i, hi⟩).Name e ∈ (RuleManager.runBatch evalF st rules).2 ∧
    (RuleManager.runBatch evalF st rules).2.filterMap ranName = rules.map Rule.Name :=
  ⟨runBatch_logs_error evalF rules st i hi e he, runBatch_ran_names evalF st rules⟩

/-- C9 (witness): three rules of which the second fails with boom — the
error is logged with the second rule's name and all three still run. -/
theorem ruleManager_batch_isolation_witness :
    BatchAction.logged "b" "boom" ∈ (RuleManager.runBatch wEvalF ⟨[], []⟩ wRules).2 ∧
    (RuleManager.runBatch wEvalF ⟨[], []⟩ wRules).2.filterMap ranName = ["a", "b", "c"] := by
  have h := ruleManager_batch_isolation wEvalF ⟨[], []⟩ wRules 1 (by decide) "boom" (by decide)
  exact ⟨h.1, by rw [h.2]; rfl⟩

/-- C10: every evaluation through the bridge hands the evaluator a fresh
child scope holding exactly the run and log bindings with the bridge as
parent; in particular the scope a second Run of the same Rule uses equals
the one the first Run used, whatever bindings the first evaluation created
locally — the only state carried between runs is the variable-manager
state threaded through. -/
theorem globalScope_eval_fresh_child_scope (evalF : EvalFn) (r : Rule) (vm : VMState) :
    (Rule.Run evalF r vm).1 =
      { parent := ScopeRef.globalBridge r.scope,
        bindings := [("run", Binding.builtinRun), ("log", Binding.builtinLog)] } ∧
    (Rule.Run evalF r (Rule.Run evalF r vm).2.2).1 = (Rule.Run evalF r vm).1 ∧
    (∀ node : Node, ∀ vm' : VMState,
       (GlobalScope.Eval r.scope evalF node vm').1 = (Rule.Run evalF r vm).1) :=
  ⟨rfl, rfl, fun _ _ => rfl⟩

end Gifttt
